import Mathlib

/-!
Shallow embedding of `src/ResNetForIllustration.py` and verification of its
design-level specification.

The source file contains two training harnesses around an opaque ResNet model:

* `MnistTrainer` (classification): per-epoch batch loops over a training and a
  validation split, running `Mean` / `CategoricalAccuracy` accumulators,
  per-epoch history lists, early stopping with a checkpoint file, and a
  whole-set `evaluate`.
* `Trainer` (regression): the same loop without accuracy metrics, an image
  loading helper, and a batched `evaluate` that handles the final remainder
  batch explicitly.

The embedding below translates the orchestration code:

* tensors, the model, the loss criterion and image loading are opaque
  collaborators, passed as function parameters (the model is a function of the
  current parameter value, an abstract type `P`);
* `tf.keras.metrics.Mean` is a (total, count) pair, `result = total / count`
  (TF divides with `div_no_nan`, so an empty accumulator yields 0, exactly as
  rational division by zero yields 0);
* `tf.keras.metrics.CategoricalAccuracy` counts argmax matches over samples;
* batch loops slice lists by `[batch * batch_size : batch * batch_size +
  batch_size]`, with `n_batches = sample_count / batch_size` in truncating
  division, mirroring lines 59-81 and 190-212;
* the epoch loop of `MnistTrainer.train` (lines 62-97) is modelled at epoch
  granularity: the parameter update performed by the training phase of epoch
  `i` and the four per-epoch accumulator results are supplied by oracles
  (`tp : ℕ → P → P` and `O : ℕ → EpochSummary`), which over-approximates every
  concrete run; the history appends, the early-stopping state machine
  (lines 148-160) and the checkpoint save/load (lines 140-146) are embedded
  exactly;
* Python failure modes are explicit: `Except PyError`; in particular
  `Trainer.train_step` (lines 246-252) reads the module-level names `model`
  and `optimizer`, which are not bound at module scope of the source file, so
  its name lookup is embedded and fails with a `NameError`.
-/

namespace ResNetIllustration

/-- Running-mean accumulator, embedding `tf.keras.metrics.Mean`:
a running total and an update count. -/
structure Mean where
  total : ℚ
  count : ℕ
deriving DecidableEq, Repr

/-- A freshly constructed (or reset, `reset_states`) mean accumulator. -/
def Mean.init : Mean := ⟨0, 0⟩

/-- Feeding one value into the mean accumulator (`self.val_loss(loss)` etc.). -/
def Mean.update (m : Mean) (v : ℚ) : Mean := ⟨m.total + v, m.count + 1⟩

/-- Accumulator read-out (`.result()`): the mean of all values since the last
reset. TF computes `div_no_nan(total, count)`, which is 0 for an empty
accumulator, matching rational division by zero. -/
def Mean.result (m : Mean) : ℚ := m.total / (m.count : ℚ)

/-- Index of the first maximum of a list of scores, continuing a scan that has
seen a best value `bv` at index `bi`, with `i` the index of the head of the
remaining list. -/
def argmaxFrom : List ℚ → ℕ → ℚ → ℕ → ℕ
  | [], bi, _, _ => bi
  | x :: xs, bi, bv, i => if bv < x then argmaxFrom xs i x (i + 1) else argmaxFrom xs bi bv (i + 1)

/-- Index of the first maximum of a list of scores (`argmax` as used by
`CategoricalAccuracy`; ties resolve to the first occurrence). -/
def argmax : List ℚ → ℕ
  | [] => 0
  | x :: xs => argmaxFrom xs 0 x 1

/-- Embedding of `tf.keras.metrics.CategoricalAccuracy`: the number of samples
whose prediction argmax equals the target argmax, and the total number of
samples seen. -/
structure CatAcc where
  hits : ℕ
  seen : ℕ
deriving DecidableEq, Repr

/-- A freshly constructed (or reset) accuracy accumulator. -/
def CatAcc.init : CatAcc := ⟨0, 0⟩

/-- Feeding one batch of (targets, predictions) into the accuracy accumulator. -/
def CatAcc.update (a : CatAcc) (t preds : List (List ℚ)) : CatAcc :=
  ⟨a.hits + (t.zip preds).countP (fun pr => argmax pr.1 == argmax pr.2), a.seen + t.length⟩

/-- Accuracy read-out: match rate over all samples since the last reset. -/
def CatAcc.result (a : CatAcc) : ℚ := (a.hits : ℚ) / (a.seen : ℚ)

/-- The contiguous slice `xs[i * B : i * B + B]` taken by batch `i` of the
batch loops (lines 70-73, 77-80, 199-202, 207-210, 263-266). -/
def batchSlice (B i : ℕ) (xs : List α) : List α := (xs.drop (i * B)).take B

/-- The list of (input, target) batch pairs visited by one phase of an epoch:
`n_batches = sample_count // batch_size` batches (lines 59-60 / 190-191), the
`i`-th being the contiguous slices starting at `i * batch_size`. -/
def batchPairs (xs : List α) (ts : List β) (B : ℕ) : List (List α × List β) :=
  (List.range (xs.length / B)).map (fun i => (batchSlice B i xs, batchSlice B i ts))

/-- One phase (training or validation) of an epoch: fold the step function over
the visited batch pairs, starting from the trainer state `s0` (lines 69-74 and
76-81; the training phase passes the shuffled arrays as `xs`, `ts`). -/
def runPhase (step : σ → List α → List β → σ) (s0 : σ) (xs : List α) (ts : List β) (B : ℕ) : σ :=
  (batchPairs xs ts B).foldl (fun s pr => step s pr.1 pr.2) s0

/-- Batch-level state of `MnistTrainer`: model parameters and the four running
accumulators. -/
structure MTBatch (P : Type) where
  params : P
  train_loss : Mean
  train_acc : CatAcc
  val_loss : Mean
  val_acc : CatAcc
deriving DecidableEq, Repr

/-- Batch-level state of the regression `Trainer`: model parameters and the two
running loss accumulators. -/
structure RBatch (P : Type) where
  params : P
  train_loss : Mean
  val_loss : Mean
deriving DecidableEq, Repr

/-- Python runtime errors surfaced by the embedded code. -/
inductive PyError where
  | nameError (n : String)
  | fileNotFound (n : String)
deriving DecidableEq, Repr

/-- Names bound at module scope of `src/ResNetForIllustration.py` when the
methods run: the imports of lines 1-13 and the two class statements. Note that
lowercase `model` and `optimizer` are not among them. -/
def pyModuleGlobals : List String :=
  ["tf", "kl", "Model", "np", "plt", "shuffle", "Image", "tqdm", "os", "sys", "ResNet",
   "MnistTrainer", "Trainer"]

/-- A few Python builtins, for completeness of the name lookup. -/
def pyBuiltins : List String :=
  ["zip", "range", "print", "list", "str", "float", "object", "len"]

/-- Python name resolution for a bare (non-attribute) name inside a method:
local scope, then module globals, then builtins; otherwise a `NameError`. -/
def lookupName (locals : List String) (n : String) : Except PyError Unit :=
  if n ∈ locals ∨ n ∈ pyModuleGlobals ∨ n ∈ pyBuiltins then Except.ok ()
  else Except.error (PyError.nameError n)

namespace MnistTrainer

/-- Embedding of `MnistTrainer.val_step` (lines 123-127): forward pass, loss,
and updates of the two validation accumulators. `model` is `self.model` as a
function of the current parameters; `criterion` is `self.criterion`. -/
def val_step {P α : Type} (model : P → α → List ℚ)
    (criterion : List (List ℚ) → List (List ℚ) → ℚ)
    (s : MTBatch P) (x : List α) (t : List (List ℚ)) : MTBatch P :=
  let preds := x.map (model s.params)
  let loss := criterion t preds
  { s with val_loss := s.val_loss.update loss, val_acc := s.val_acc.update t preds }

/-- Embedding of `MnistTrainer.evaluate` (lines 129-138): a single forward pass
over the whole held-out set, a loss computed as `self.criterion(preds, t_test)`
(line 132 passes the predictions first), a fresh accuracy accumulator fed with
`(t_test, preds)`, returning the `(accuracy, loss)` pair. -/
def evaluate {P α : Type} (model : P → α → List ℚ)
    (criterion : List (List ℚ) → List (List ℚ) → ℚ)
    (p : P) (x_test : List α) (t_test : List (List ℚ)) : ℚ × ℚ :=
  let preds := x_test.map (model p)
  let loss := criterion preds t_test
  let accuracy := CatAcc.init.update t_test preds
  (accuracy.result, loss)

/-- Per-epoch summary values produced by one epoch of the classification run:
the results of the four running accumulators at epoch end (lines 83-93). -/
structure EpochSummary where
  tl : ℚ
  vl : ℚ
  ta : ℚ
  va : ℚ
deriving DecidableEq, Repr

/-- Epoch-level state of `MnistTrainer`: current model parameters, the early
stopping dictionary `self.es` (fields `loss` — `none` embeds the initial
`float('inf')` —, `patience`, `step`), the single checkpoint slot backing
`./logs/early_stopping_saving` (`none` = file absent), the four history lists,
the number of completed epochs, and whether the loop has been broken. -/
structure MTrain (P : Type) where
  params : P
  esLoss : Option ℚ
  esPatience : ℕ
  esStep : ℕ
  ckpt : Option P
  hTL : List ℚ
  hVL : List ℚ
  hTA : List ℚ
  hVA : List ℚ
  epochsDone : ℕ
  stopped : Bool
deriving DecidableEq, Repr

/-- The comparison `loss > self.es['loss']` of line 149, with the initial
`float('inf')` embedded as `none` (nothing is greater than infinity). -/
def esGT (loss : ℚ) (best : Option ℚ) : Bool :=
  match best with
  | none => false
  | some b => decide (b < loss)

/-- State of a freshly constructed `MnistTrainer` (lines 18-47): empty history,
`es = {loss: inf, patience: patience, step: 0}`, no checkpoint on disk. -/
def initState {P : Type} (p0 : P) (patience : ℕ) : MTrain P :=
  ⟨p0, none, patience, 0, none, [], [], [], [], 0, false⟩

/-- Embedding of `MnistTrainer.early_stopping` (lines 148-160), with
`save` / `load` (lines 140-146) inlined as writes/reads of the checkpoint
slot. Returns the boolean result together with the successor state; loading a
missing checkpoint file is a runtime error. -/
def early_stopping {P : Type} (loss : ℚ) (s : MTrain P) : Except PyError (Bool × MTrain P) :=
  if esGT loss s.esLoss then
    let s1 : MTrain P := { s with esStep := s.esStep + 1 }
    if s1.esPatience < s1.esStep then
      match s1.ckpt with
      | some p => Except.ok (true, { s1 with params := p })
      | none => Except.error (PyError.fileNotFound "logs/early_stopping_saving")
    else
      Except.ok (false, s1)
  else
    Except.ok (false, { s with esLoss := some loss, esStep := 0, ckpt := some s.params })

/-- One iteration of the epoch loop of `MnistTrainer.train` (lines 62-97) with
`early_stopping = True`: the training phase updates the parameters (oracle
`tp`, applied to the epoch index and current parameters), the accumulators
produce the epoch summary (oracle `O`), the four history lists are appended to
(lines 83-86), and then the early-stopping check runs on `val_loss.result()`
(lines 95-97), recording whether the loop must break. -/
def trainEpoch {P : Type} (tp : ℕ → P → P) (O : ℕ → EpochSummary)
    (s : MTrain P) : Except PyError (MTrain P) :=
  let i := s.epochsDone
  let o := O i
  let s1 : MTrain P :=
    { s with
      params := tp i s.params,
      hTL := s.hTL ++ [o.tl], hVL := s.hVL ++ [o.vl],
      hTA := s.hTA ++ [o.ta], hVA := s.hVA ++ [o.va],
      epochsDone := i + 1 }
  match early_stopping o.vl s1 with
  | Except.error e => Except.error e
  | Except.ok (stop, s2) => Except.ok { s2 with stopped := stop }

/-- The epoch loop of `MnistTrainer.train` with early stopping enabled, run for
(up to) `n` epochs: `for epoch in range(n)` with `break` once the check
signals a stop. -/
def trainLoop {P : Type} (tp : ℕ → P → P) (O : ℕ → EpochSummary) :
    ℕ → MTrain P → Except PyError (MTrain P)
  | 0, s => Except.ok s
  | n + 1, s =>
    match trainLoop tp O n s with
    | Except.error e => Except.error e
    | Except.ok s1 => if s1.stopped then Except.ok s1 else trainEpoch tp O s1

/-- Parameters held by the model at the end of the training phase of (0-based)
epoch `k`, under the parameter-update oracle `tp`: the values the validation
loss of epoch `k` is computed with, and the values `save` would persist at
epoch `k`. -/
def paramsAt {P : Type} (tp : ℕ → P → P) (p0 : P) : ℕ → P
  | 0 => tp 0 p0
  | k + 1 => tp (k + 1) (paramsAt tp p0 k)

/-- Invariant of the epoch loop of `MnistTrainer.train` with early stopping
enabled, after `n` loop iterations from a freshly constructed trainer: the
history lists hold one entry per completed epoch; before the first epoch the
early-stopping state is still the constructor state; afterwards there is a
(last) best epoch `j` whose validation loss is minimal among those observed,
whose parameters are the checkpoint on disk, every later epoch was strictly
worse, the non-improvement counter counts the epochs after `j`, and the loop
has been broken exactly when the counter exceeded the patience, right when it
first did so. -/
def EsInv {P : Type} (tp : ℕ → P → P) (O : ℕ → EpochSummary) (p0 : P) (patience n : ℕ)
    (s : MTrain P) : Prop :=
  s.esPatience = patience
  ∧ s.hTL = (List.range s.epochsDone).map (fun i => (O i).tl)
  ∧ s.hVL = (List.range s.epochsDone).map (fun i => (O i).vl)
  ∧ s.hTA = (List.range s.epochsDone).map (fun i => (O i).ta)
  ∧ s.hVA = (List.range s.epochsDone).map (fun i => (O i).va)
  ∧ s.epochsDone ≤ n
  ∧ (s.stopped = false → s.epochsDone = n)
  ∧ (s.epochsDone = 0 →
      s.esLoss = none ∧ s.ckpt = none ∧ s.esStep = 0 ∧ s.stopped = false ∧ s.params = p0)
  ∧ (0 < s.epochsDone → ∃ j, j < s.epochsDone
      ∧ s.esLoss = some ((O j).vl)
      ∧ s.ckpt = some (paramsAt tp p0 j)
      ∧ (∀ i, i < s.epochsDone → (O j).vl ≤ (O i).vl)
      ∧ (∀ i, j < i → i < s.epochsDone → (O j).vl < (O i).vl)
      ∧ s.esStep + j + 1 = s.epochsDone
      ∧ (s.stopped = true ↔ patience < s.esStep)
      ∧ (s.stopped = true → s.esStep = patience + 1)
      ∧ (s.stopped = false → s.params = paramsAt tp p0 (s.epochsDone - 1))
      ∧ (s.stopped = true → s.params = paramsAt tp p0 j))

end MnistTrainer

namespace Trainer

/-- Embedding of `Trainer.val_step` (lines 254-257): forward pass, loss, and
an update of the validation loss accumulator only. -/
def val_step {P α : Type} (model : P → α → ℚ) (criterion : List ℚ → List ℚ → ℚ)
    (s : RBatch P) (x : List α) (t : List ℚ) : RBatch P :=
  let preds := x.map (model s.params)
  let loss := criterion t preds
  { s with val_loss := s.val_loss.update loss }

/-- Embedding of `Trainer.train_step` (lines 246-252). The forward pass and
loss (lines 248-249) use `self.model` and `self.criterion`; line 250 then
reads the bare name `model` (not `self.model`), which is bound neither locally
nor at module scope, so Python raises a `NameError` there; line 251 would
likewise read the unbound bare name `optimizer`. The local scope at line 250
holds exactly `self, x, t, tape, preds, loss`. -/
def train_step {P α : Type} (model : P → α → ℚ) (criterion : List ℚ → List ℚ → ℚ)
    (s : RBatch P) (x : List α) (t : List ℚ) : Except PyError (RBatch P) :=
  let preds := x.map (model s.params)
  let loss := criterion t preds
  match lookupName ["self", "x", "t", "tape", "preds", "loss"] "model" with
  | Except.error e => Except.error e
  | Except.ok _ =>
    match lookupName ["self", "x", "t", "tape", "preds", "loss", "grads"] "optimizer" with
    | Except.error e => Except.error e
    | Except.ok _ => Except.ok { s with train_loss := s.train_loss.update loss }

/-- Embedding of `Trainer.evaluate` (lines 259-277): `n_batches` full batches
of size `batch_size` fed into a fresh `Mean` accumulator, then the explicit
final slice `[batch_size * n_batches : len(x_test)]` (lines 270-275), and the
accumulator result is printed and returned. `get_image` embeds the per-sample
image loading of `get_image` (lines 234-244); `criterion` is called as
`self.criterion(t_batch, self.model(img_batch))`. -/
def evaluate {P α γ : Type} (model : P → γ → ℚ) (criterion : List ℚ → List ℚ → ℚ)
    (get_image : α → γ) (p : P) (x_test : List α) (t_test : List ℚ) (batch_size : ℕ) : ℚ :=
  let n_batches := x_test.length / batch_size
  let m := (List.range n_batches).foldl
    (fun (m : Mean) batch =>
      m.update (criterion (batchSlice batch_size batch t_test)
        (((batchSlice batch_size batch x_test).map get_image).map (model p)))) Mean.init
  let x_last := x_test.drop (n_batches * batch_size)
  let t_last := t_test.drop (n_batches * batch_size)
  let m := m.update (criterion t_last ((x_last.map get_image).map (model p)))
  m.result

/-- Specification-side description of the per-batch losses of
`Trainer.evaluate`, computed independently in the same order: one loss per full
batch, followed by the loss of the final remainder slice. -/
def evalLosses {P α γ : Type} (model : P → γ → ℚ) (criterion : List ℚ → List ℚ → ℚ)
    (get_image : α → γ) (p : P) (x_test : List α) (t_test : List ℚ) (batch_size : ℕ) : List ℚ :=
  ((List.range (x_test.length / batch_size)).map (fun batch =>
    criterion (batchSlice batch_size batch t_test)
      (((batchSlice batch_size batch x_test).map get_image).map (model p))))
  ++ [criterion (t_test.drop (x_test.length / batch_size * batch_size))
      (((x_test.drop (x_test.length / batch_size * batch_size)).map get_image).map (model p))]

end Trainer

/-- Specification-side description of the per-batch losses of one validation
phase of `MnistTrainer.train`, computed independently over the same batches in
the same (original, unshuffled) order. -/
def valBatchLosses {P α : Type} (model : P → α → List ℚ)
    (criterion : List (List ℚ) → List (List ℚ) → ℚ)
    (p : P) (xs : List α) (ts : List (List ℚ)) (B : ℕ) : List ℚ :=
  (batchPairs xs ts B).map (fun pr => criterion pr.2 (pr.1.map (model p)))

/-- A concrete asymmetric loss criterion (it reads the first component of its
first argument), used to exhibit the argument order used by
`MnistTrainer.evaluate`. -/
def cSwap : List (List ℚ) → List (List ℚ) → ℚ := fun a _ => (a.headD []).headD 0

/-! Helper lemmas, shared by several claims. -/

/-- Folding `Mean.update` over a list of values adds the list sum to the total
and the list length to the count. -/
theorem Mean_foldl_update (ls : List ℚ) :
    ∀ m : Mean, ls.foldl Mean.update m = ⟨m.total + ls.sum, m.count + ls.length⟩ := by
  induction ls with
  | nil => intro m; cases m; simp
  | cons a ls ih =>
    intro m
    rw [List.foldl_cons, ih]
    simp [Mean.update]
    constructor
    · ring
    · omega

/-- A batch index below `sample_count / batch_size` yields an in-bounds slice. -/
theorem batch_in_bounds {xs : List α} {B i : ℕ} (hi : i < xs.length / B) :
    i * B + B ≤ xs.length := by
  have h1 : (i + 1) * B ≤ xs.length / B * B := Nat.mul_le_mul_right B hi
  have h2 : xs.length / B * B ≤ xs.length := Nat.div_mul_le_self _ _
  calc i * B + B = (i + 1) * B := by ring
    _ ≤ xs.length / B * B := h1
    _ ≤ xs.length := h2

/-- An in-bounds batch slice has exactly `batch_size` elements. -/
theorem batchSlice_length {xs : List α} {B i : ℕ} (h : i * B + B ≤ xs.length) :
    (batchSlice B i xs).length = B := by
  simp [batchSlice]
  omega

/-- Concatenating the first `k` batch slices reconstructs the prefix of the
data of length `k * batch_size`. -/
theorem flatten_batchSlices (xs : List α) (B : ℕ) :
    ∀ k, k * B ≤ xs.length →
      ((List.range k).map (fun i => batchSlice B i xs)).flatten = xs.take (k * B) := by
  intro k
  induction k with
  | zero => intro _; simp
  | succ k ih =>
    intro h
    have hk : k * B ≤ xs.length := le_trans (Nat.mul_le_mul_right B (Nat.le_succ k)) h
    rw [List.range_succ, List.map_append, List.flatten_append, ih hk]
    simp [batchSlice, Nat.succ_mul, List.take_add]

/-- Folding `MnistTrainer.val_step` over a list of batch pairs leaves the model
parameters untouched and feeds exactly the per-batch loss values, in order,
into the validation loss accumulator. -/
theorem valPhase_foldl_spec {P α : Type} (model : P → α → List ℚ)
    (criterion : List (List ℚ) → List (List ℚ) → ℚ) :
    ∀ (bs : List (List α × List (List ℚ))) (s : MTBatch P),
      (bs.foldl (fun s pr => MnistTrainer.val_step model criterion s pr.1 pr.2) s).params
        = s.params
      ∧ (bs.foldl (fun s pr => MnistTrainer.val_step model criterion s pr.1 pr.2) s).val_loss
        = (bs.map (fun pr => criterion pr.2 (pr.1.map (model s.params)))).foldl Mean.update
            s.val_loss := by
  intro bs
  induction bs with
  | nil => intro s; exact ⟨rfl, rfl⟩
  | cons b bs ih =>
    intro s
    obtain ⟨h1, h2⟩ := ih (MnistTrainer.val_step model criterion s b.1 b.2)
    exact ⟨h1, h2⟩

/-! Claim theorems. -/

/-- C3: for every dataset split and batch size `B ≥ 1`, a batch-loop phase
visits exactly `sample_count / B` batches; each visited batch is a contiguous
slice of size `B` of the inputs paired with the matching slice of the targets;
concatenating the visited input (resp. target) batches in order gives exactly
the prefix of length `(sample_count / B) * B`, so the trailing remainder
samples are never passed to any step function. -/
theorem batch_driver_floor_partition {α β : Type} (xs : List α) (ts : List β) (B : ℕ)
    (hB : 1 ≤ B) (hlen : ts.length = xs.length) :
    (batchPairs xs ts B).length = xs.length / B
    ∧ (∀ pr ∈ batchPairs xs ts B, pr.1.length = B ∧ pr.2.length = B)
    ∧ ((batchPairs xs ts B).map Prod.fst).flatten = xs.take (xs.length / B * B)
    ∧ ((batchPairs xs ts B).map Prod.snd).flatten = ts.take (xs.length / B * B) := by
  refine ⟨by simp [batchPairs], ?_, ?_, ?_⟩
  · intro pr hpr
    simp only [batchPairs, List.mem_map, List.mem_range] at hpr
    obtain ⟨i, hi, rfl⟩ := hpr
    refine ⟨batchSlice_length (batch_in_bounds hi), batchSlice_length ?_⟩
    rw [hlen]
    exact batch_in_bounds hi
  · have : (batchPairs xs ts B).map Prod.fst
        = (List.range (xs.length / B)).map (fun i => batchSlice B i xs) := by
      simp [batchPairs, List.map_map]
    rw [this]
    exact flatten_batchSlices xs B _ (Nat.div_mul_le_self _ _)
  · have : (batchPairs xs ts B).map Prod.snd
        = (List.range (xs.length / B)).map (fun i => batchSlice B i ts) := by
      simp [batchPairs, List.map_map]
    rw [this]
    apply flatten_batchSlices
    rw [hlen]
    exact Nat.div_mul_le_self _ _

/-- Witness for C3 at a concrete input: 7 samples, batch size 3. -/
theorem batch_driver_floor_partition_w :
    (batchPairs [0, 1, 2, 3, 4, 5, 6] ([10, 11, 12, 13, 14, 15, 16] : List ℕ) 3).length
        = [0, 1, 2, 3, 4, 5, 6].length / 3
    ∧ (∀ pr ∈ batchPairs [0, 1, 2, 3, 4, 5, 6] ([10, 11, 12, 13, 14, 15, 16] : List ℕ) 3,
        pr.1.length = 3 ∧ pr.2.length = 3) := by
  have h := batch_driver_floor_partition [0, 1, 2, 3, 4, 5, 6]
    ([10, 11, 12, 13, 14, 15, 16] : List ℕ) 3 (by decide) (by decide)
  exact ⟨h.1, h.2.1⟩

/-- C9: when the batch size exceeds the sample count of a split, the batch
driver computes zero batches and invokes no step function: the phase returns
its input state unchanged, a silent degenerate no-op rather than an error. -/
theorem batch_driver_degenerate {σ α β : Type} (step : σ → List α → List β → σ) (s0 : σ)
    (xs : List α) (ts : List β) (B : ℕ) (h : xs.length < B) :
    batchPairs xs ts B = [] ∧ runPhase step s0 xs ts B = s0 := by
  have hz : xs.length / B = 0 := Nat.div_eq_of_lt h
  constructor
  · simp [batchPairs, hz]
  · simp [runPhase, batchPairs, hz]

/-- Witness for C9 at a concrete input: 3 samples, batch size 5, a step
function that counts its invocations. -/
theorem batch_driver_degenerate_w :
    batchPairs [0, 1, 2] ([0, 1, 2] : List ℕ) 5 = []
    ∧ runPhase (fun (n : ℕ) (_ : List ℕ) (_ : List ℕ) => n + 1) 0 [0, 1, 2] [0, 1, 2] 5 = 0 :=
  batch_driver_degenerate _ 0 _ _ 5 (by decide)

/-- C8: both validation steps perform only a forward evaluation, a loss
computation and metric updates: the model parameters are unchanged, the
training accumulators are unchanged, and the validation accumulators are
updated with the loss (and accuracy) of the current batch. -/
theorem val_step_readonly {P α Q γ : Type} (model : P → α → List ℚ)
    (criterion : List (List ℚ) → List (List ℚ) → ℚ) (s : MTBatch P)
    (x : List α) (t : List (List ℚ))
    (modelR : Q → γ → ℚ) (criterionR : List ℚ → List ℚ → ℚ) (sR : RBatch Q)
    (xR : List γ) (tR : List ℚ) :
    (MnistTrainer.val_step model criterion s x t).params = s.params
    ∧ (MnistTrainer.val_step model criterion s x t).train_loss = s.train_loss
    ∧ (MnistTrainer.val_step model criterion s x t).train_acc = s.train_acc
    ∧ (MnistTrainer.val_step model criterion s x t).val_loss
        = s.val_loss.update (criterion t (x.map (model s.params)))
    ∧ (MnistTrainer.val_step model criterion s x t).val_acc
        = s.val_acc.update t (x.map (model s.params))
    ∧ (Trainer.val_step modelR criterionR sR xR tR).params = sR.params
    ∧ (Trainer.val_step modelR criterionR sR xR tR).train_loss = sR.train_loss
    ∧ (Trainer.val_step modelR criterionR sR xR tR).val_loss
        = sR.val_loss.update (criterionR tR (xR.map (modelR sR.params))) :=
  ⟨rfl, rfl, rfl, rfl, rfl, rfl, rfl, rfl⟩

/-- C4: the validation loss accumulator result after a validation phase equals
the arithmetic mean of the per-batch losses computed independently over the
same batches in the same (original, unshuffled) order, provided the
accumulator was reset at the start of the epoch. -/
theorem val_loss_running_mean {P α : Type} (model : P → α → List ℚ)
    (criterion : List (List ℚ) → List (List ℚ) → ℚ) (s0 : MTBatch P)
    (xs : List α) (ts : List (List ℚ)) (B : ℕ)
    (h0 : s0.val_loss = Mean.init) :
    (runPhase (MnistTrainer.val_step model criterion) s0 xs ts B).val_loss.result
      = (valBatchLosses model criterion s0.params xs ts B).sum
        / ((valBatchLosses model criterion s0.params xs ts B).length : ℚ) := by
  obtain ⟨-, h2⟩ := valPhase_foldl_spec model criterion (batchPairs xs ts B) s0
  have : (runPhase (MnistTrainer.val_step model criterion) s0 xs ts B).val_loss
      = (valBatchLosses model criterion s0.params xs ts B).foldl Mean.update s0.val_loss := h2
  rw [this, h0, Mean_foldl_update]
  simp [Mean.result, Mean.init]

/-- Witness for C4 at a concrete input: two batches of size 1 with constant
loss 2; the accumulator result is the mean of the per-batch losses. -/
theorem val_loss_running_mean_w :
    (runPhase
        (MnistTrainer.val_step (fun (_ : Unit) (_ : ℚ) => ([] : List ℚ))
          (fun _ _ => (2 : ℚ)))
        ⟨(), Mean.init, CatAcc.init, Mean.init, CatAcc.init⟩ [1, 2] [[], []] 1).val_loss.result
      = (valBatchLosses (fun (_ : Unit) (_ : ℚ) => ([] : List ℚ)) (fun _ _ => (2 : ℚ))
          () [1, 2] [[], []] 1).sum
        / ((valBatchLosses (fun (_ : Unit) (_ : ℚ) => ([] : List ℚ)) (fun _ _ => (2 : ℚ))
          () [1, 2] [[], []] 1).length : ℚ) :=
  val_loss_running_mean _ _ _ _ _ _ rfl

/-- C7: the regression `Trainer.evaluate` visits `sample_count / B` full
batches of size `B` followed by one explicitly handled final slice of size
`sample_count % B`, accumulates a running mean of the per-batch losses, and
returns that mean; in particular, for 37 samples and batch size 10 it visits
3 full batches plus one remainder of 7, while the training path for the same
sizes visits exactly 3 batches. -/
theorem evaluate_remainder_batching {P α γ : Type} (model : P → γ → ℚ)
    (criterion : List ℚ → List ℚ → ℚ) (get_image : α → γ) (p : P)
    (x_test : List α) (t_test : List ℚ) (B : ℕ)
    (hB : 1 ≤ B) (hlen : t_test.length = x_test.length) :
    ((x_test.drop (x_test.length / B * B)).length = x_test.length % B)
    ∧ (∀ i, i < x_test.length / B → (batchSlice B i x_test).length = B)
    ∧ (Trainer.evalLosses model criterion get_image p x_test t_test B).length
        = x_test.length / B + 1
    ∧ Trainer.evaluate model criterion get_image p x_test t_test B
        = (Trainer.evalLosses model criterion get_image p x_test t_test B).sum
          / ((Trainer.evalLosses model criterion get_image p x_test t_test B).length : ℚ)
    ∧ (x_test.length = 37 → B = 10 →
        x_test.length / B = 3 ∧ (x_test.drop 30).length = 7
        ∧ (batchPairs x_test t_test B).length = 3) := by
  have hdm : x_test.length / B * B + x_test.length % B = x_test.length := by
    conv_rhs => rw [← Nat.div_add_mod x_test.length B]
    ring
  refine ⟨?_, ?_, ?_, ?_, ?_⟩
  · rw [List.length_drop]
    omega
  · intro i hi
    exact batchSlice_length (batch_in_bounds hi)
  · simp [Trainer.evalLosses]
  · rw [Trainer.evaluate, Trainer.evalLosses]
    rw [← List.foldl_map
      (fun batch =>
        criterion (batchSlice B batch t_test)
          (((batchSlice B batch x_test).map get_image).map (model p)))
      Mean.update]
    rw [Mean_foldl_update]
    simp [Mean.update, Mean.result, Mean.init]
  · intro h37 h10
    subst h10
    refine ⟨by omega, ?_, by simp [batchPairs]; omega⟩
    rw [List.length_drop]
    omega

/-- Witness for C7 at a concrete input: 37 samples, batch size 10; the final
remainder slice has 7 samples. -/
theorem evaluate_remainder_batching_w :
    (1 : ℕ) ≤ 10
    ∧ ((List.replicate 37 (0 : ℚ)).drop
          ((List.replicate 37 (0 : ℚ)).length / 10 * 10)).length
        = (List.replicate 37 (0 : ℚ)).length % 10 :=
  ⟨by decide,
    (evaluate_remainder_batching (fun (_ : Unit) (v : ℚ) => v) (fun t _ => t.sum) id ()
      (List.replicate 37 (0 : ℚ)) (List.replicate 37 (0 : ℚ)) 10 (by decide) rfl).1⟩

/-- C5 exhibit: `MnistTrainer.evaluate` calls the loss collaborator as
`compute(predictions, targets)` (line 132 of the source), not as
`compute(targets, predictions)` as specified: with the asymmetric criterion
`cSwap`, the identity model, `x_test = [[2]]` and `t_test = [[1]]`, the
returned loss is `cSwap preds t_test = 2`, while the specified call
`cSwap t_test preds` yields `1` (the accuracy, 1 here, is unaffected). -/
theorem evaluate_swapped_criterion :
    MnistTrainer.evaluate (fun (_ : Unit) (v : List ℚ) => v) cSwap () [[(2 : ℚ)]] [[(1 : ℚ)]]
        = (1, 2)
    ∧ cSwap [[(1 : ℚ)]] [[(2 : ℚ)]] = 1 ∧ ((2 : ℚ) ≠ 1) := by
  refine ⟨?_, by decide, by decide⟩
  have hacc : CatAcc.init.update [[(1 : ℚ)]] [[(2 : ℚ)]] = ⟨1, 1⟩ := by decide
  show ((CatAcc.init.update [[(1 : ℚ)]] [[(2 : ℚ)]]).result,
    cSwap [[(2 : ℚ)]] [[(1 : ℚ)]]) = (1, 2)
  rw [hacc]
  have hres : (⟨1, 1⟩ : CatAcc).result = 1 := by
    simp [CatAcc.result]
  rw [hres]
  have hloss : cSwap [[(2 : ℚ)]] [[(1 : ℚ)]] = 2 := by decide
  rw [hloss]

/-- C6 exhibit: every invocation of the regression `Trainer.train_step` fails
with `NameError: name 'model' is not defined` at the gradient line (line 250
reads the bare global `model`), so no gradient is computed and no optimizer
update is ever applied through this method. -/
theorem train_step_name_error {P α : Type} (model : P → α → ℚ)
    (criterion : List ℚ → List ℚ → ℚ) (s : RBatch P) (x : List α) (t : List ℚ) :
    Trainer.train_step model criterion s x t = Except.error (PyError.nameError "model") := by
  have h : lookupName ["self", "x", "t", "tape", "preds", "loss"] "model"
      = Except.error (PyError.nameError "model") := rfl
  simp [Trainer.train_step, h]

namespace MnistTrainer

/-- The comparison with the initial infinite best loss is always false. -/
theorem esGT_none (l : ℚ) : esGT l none = false := rfl

/-- The comparison with a finite best loss is the strict order on rationals. -/
theorem esGT_some {l b : ℚ} : esGT l (some b) = true ↔ b < l := by simp [esGT]

/-- An epoch whose validation loss does not exceed the best seen so far takes
the improvement branch: history appended, best loss updated, counter reset,
current parameters persisted as the checkpoint, no stop. -/
theorem trainEpoch_improve {P : Type} (tp : ℕ → P → P) (O : ℕ → EpochSummary)
    (s : MTrain P) (h : esGT (O s.epochsDone).vl s.esLoss = false) :
    trainEpoch tp O s = Except.ok
      { params := tp s.epochsDone s.params,
        esLoss := some ((O s.epochsDone).vl),
        esPatience := s.esPatience,
        esStep := 0,
        ckpt := some (tp s.epochsDone s.params),
        hTL := s.hTL ++ [(O s.epochsDone).tl],
        hVL := s.hVL ++ [(O s.epochsDone).vl],
        hTA := s.hTA ++ [(O s.epochsDone).ta],
        hVA := s.hVA ++ [(O s.epochsDone).va],
        epochsDone := s.epochsDone + 1,
        stopped := false } := by
  simp [trainEpoch, early_stopping, h]

/-- An epoch whose validation loss exceeds the best, with the incremented
counter still within patience: history appended, counter incremented, no stop,
checkpoint and best loss untouched. -/
theorem trainEpoch_worse_continue {P : Type} (tp : ℕ → P → P) (O : ℕ → EpochSummary)
    (s : MTrain P) (h : esGT (O s.epochsDone).vl s.esLoss = true)
    (h2 : ¬ s.esPatience < s.esStep + 1) :
    trainEpoch tp O s = Except.ok
      { s with
        params := tp s.epochsDone s.params,
        esStep := s.esStep + 1,
        hTL := s.hTL ++ [(O s.epochsDone).tl],
        hVL := s.hVL ++ [(O s.epochsDone).vl],
        hTA := s.hTA ++ [(O s.epochsDone).ta],
        hVA := s.hVA ++ [(O s.epochsDone).va],
        epochsDone := s.epochsDone + 1,
        stopped := false } := by
  simp [trainEpoch, early_stopping, h, h2]

/-- An epoch whose validation loss exceeds the best, with the incremented
counter exceeding the patience: history appended, parameters restored from the
checkpoint, stop signalled; best loss and checkpoint untouched. -/
theorem trainEpoch_worse_stop {P : Type} (tp : ℕ → P → P) (O : ℕ → EpochSummary)
    (s : MTrain P) (h : esGT (O s.epochsDone).vl s.esLoss = true)
    (h2 : s.esPatience < s.esStep + 1) (q : P) (hq : s.ckpt = some q) :
    trainEpoch tp O s = Except.ok
      { s with
        params := q,
        esStep := s.esStep + 1,
        hTL := s.hTL ++ [(O s.epochsDone).tl],
        hVL := s.hVL ++ [(O s.epochsDone).vl],
        hTA := s.hTA ++ [(O s.epochsDone).ta],
        hVA := s.hVA ++ [(O s.epochsDone).va],
        epochsDone := s.epochsDone + 1,
        stopped := true } := by
  simp [trainEpoch, early_stopping, h, h2, hq]

/-- The epoch loop maintains the invariant `EsInv` and never fails, starting
from a freshly constructed trainer. -/
theorem trainLoop_inv {P : Type} (tp : ℕ → P → P) (O : ℕ → EpochSummary) (p0 : P)
    (patience : ℕ) :
    ∀ n, ∃ s, trainLoop tp O n (initState p0 patience) = Except.ok s
      ∧ EsInv tp O p0 patience n s := by
  intro n
  induction n with
  | zero =>
    refine ⟨initState p0 patience, rfl, ?_⟩
    simp [EsInv, initState]
  | succ n ih =>
    obtain ⟨s, hrun, hinv⟩ := ih
    obtain ⟨c1, c2, c3, c4, c5, c6, c7, c8, c9⟩ := hinv
    by_cases hstop : s.stopped = true
    · refine ⟨s, ?_, ?_⟩
      · simp [trainLoop, hrun, hstop]
      · refine ⟨c1, c2, c3, c4, c5, by omega, ?_, c8, c9⟩
        intro hf
        rw [hf] at hstop
        exact absurd hstop (by simp)
    · have hsf : s.stopped = false := by revert hstop; cases s.stopped <;> simp
      have hm : s.epochsDone = n := c7 hsf
      have hloop : trainLoop tp O (n + 1) (initState p0 patience) = trainEpoch tp O s := by
        simp [trainLoop, hrun, hsf]
      have hparams : tp s.epochsDone s.params = paramsAt tp p0 s.epochsDone := by
        rcases Nat.eq_zero_or_pos s.epochsDone with hz | hp
        · rw [hz, (c8 hz).2.2.2.2, paramsAt]
        · obtain ⟨j, hj, _, _, _, _, _, _, _, hpf, _⟩ := c9 hp
          rw [hpf hsf]
          rcases Nat.exists_eq_succ_of_ne_zero (Nat.pos_iff_ne_zero.mp hp) with ⟨k, hk⟩
          rw [hk]
          simp [paramsAt]
      cases hgt : esGT (O s.epochsDone).vl s.esLoss with
      | false =>
        rw [trainEpoch_improve tp O s hgt] at hloop
        refine ⟨_, hloop, ?_⟩
        unfold EsInv
        dsimp only
        refine ⟨c1, ?_, ?_, ?_, ?_, by omega, fun _ => by omega, ?_, ?_⟩
        · simp [c2, List.range_succ]
        · simp [c3, List.range_succ]
        · simp [c4, List.range_succ]
        · simp [c5, List.range_succ]
        · intro hz; exact absurd hz (by omega)
        · intro _
          refine ⟨s.epochsDone, Nat.lt_succ_self _, rfl, by rw [hparams], ?_, ?_, by omega,
            by simp, ?_, ?_, ?_⟩
          · intro i hi
            rcases Nat.lt_succ_iff_lt_or_eq.mp hi with hi' | hi'
            · rcases Nat.eq_zero_or_pos s.epochsDone with hz | hp
              · exfalso; omega
              · obtain ⟨j, hj, hbest, _, hmin, _, _, _, _, _, _⟩ := c9 hp
                have hle : (O s.epochsDone).vl ≤ (O j).vl := by
                  rw [hbest] at hgt
                  have hnlt : ¬ (O j).vl < (O s.epochsDone).vl := by
                    intro hc
                    rw [esGT_some.mpr hc] at hgt
                    exact absurd hgt (by simp)
                  exact le_of_not_lt hnlt
                exact le_trans hle (hmin i hi')
            · rw [hi']
          · intro i hi1 hi2; exfalso; omega
          · intro hf; exact (Bool.false_ne_true hf).elim
          · intro _; simp only [Nat.add_sub_cancel]; exact hparams
          · intro hf; exact (Bool.false_ne_true hf).elim
      | true =>
        have hp : 0 < s.epochsDone := by
          rcases Nat.eq_zero_or_pos s.epochsDone with hz | hp
          · rw [(c8 hz).1] at hgt
            exact absurd hgt (by simp [esGT_none])
          · exact hp
        obtain ⟨j, hj, hbest, hckpt, hmin, hstrict, hstep, hiff, _, _, _⟩ := c9 hp
        have hlt : (O j).vl < (O s.epochsDone).vl := by
          rw [hbest] at hgt
          exact esGT_some.mp hgt
        have hnostop : ¬ patience < s.esStep := by
          intro hc
          rw [hiff.mpr hc] at hsf
          exact absurd hsf (by simp)
        by_cases hpat : s.esPatience < s.esStep + 1
        · rw [trainEpoch_worse_stop tp O s hgt hpat _ hckpt] at hloop
          refine ⟨_, hloop, ?_⟩
          unfold EsInv
          dsimp only
          refine ⟨c1, ?_, ?_, ?_, ?_, by omega, ?_, ?_, ?_⟩
          · simp [c2, List.range_succ]
          · simp [c3, List.range_succ]
          · simp [c4, List.range_succ]
          · simp [c5, List.range_succ]
          · intro hf; exact absurd hf (by simp)
          · intro hz; exact absurd hz (by omega)
          · intro _
            refine ⟨j, by omega, hbest, hckpt, ?_, ?_, by omega, ?_, ?_, ?_, fun _ => rfl⟩
            · intro i hi
              rcases Nat.lt_succ_iff_lt_or_eq.mp hi with hi' | hi'
              · exact hmin i hi'
              · rw [hi']; exact le_of_lt hlt
            · intro i hji hi
              rcases Nat.lt_succ_iff_lt_or_eq.mp hi with hi' | hi'
              · exact hstrict i hji hi'
              · rw [hi']; exact hlt
            · rw [c1] at hpat
              constructor
              · intro _; omega
              · intro _; rfl
            · intro _
              rw [c1] at hpat
              omega
            · intro hf; exact absurd hf (by simp)
        · rw [trainEpoch_worse_continue tp O s hgt hpat] at hloop
          refine ⟨_, hloop, ?_⟩
          unfold EsInv
          dsimp only
          refine ⟨c1, ?_, ?_, ?_, ?_, by omega, fun _ => by omega, ?_, ?_⟩
          · simp [c2, List.range_succ]
          · simp [c3, List.range_succ]
          · simp [c4, List.range_succ]
          · simp [c5, List.range_succ]
          · intro hz; exact absurd hz (by omega)
          · intro _
            refine ⟨j, by omega, hbest, hckpt, ?_, ?_, by omega, ?_, ?_, ?_, ?_⟩
            · intro i hi
              rcases Nat.lt_succ_iff_lt_or_eq.mp hi with hi' | hi'
              · exact hmin i hi'
              · rw [hi']; exact le_of_lt hlt
            · intro i hji hi
              rcases Nat.lt_succ_iff_lt_or_eq.mp hi with hi' | hi'
              · exact hstrict i hji hi'
              · rw [hi']; exact hlt
            · rw [c1] at hpat
              constructor
              · intro hf; exact (Bool.false_ne_true hf).elim
              · intro hc; exfalso; omega
            · intro hf; exact (Bool.false_ne_true hf).elim
            · intro _; simp only [Nat.add_sub_cancel]; exact hparams
            · intro hf; exact (Bool.false_ne_true hf).elim

/-- C1: in a run with early stopping enabled whose per-epoch validation losses
are strictly increasing, and an epoch budget of at least `patience + 2`, the
loop stops after exactly `patience + 2` epochs (the first epoch establishes
the initial best), and the parameters loaded back at the stop are the
parameters that were saved as the checkpoint at epoch 1 (0-based epoch 0). -/
theorem early_stopping_strictly_increasing {P : Type} (tp : ℕ → P → P)
    (O : ℕ → EpochSummary) (p0 : P) (patience epochs : ℕ)
    (hmono : ∀ i j, i < j → (O i).vl < (O j).vl)
    (he : patience + 2 ≤ epochs) :
    ∃ s, trainLoop tp O epochs (initState p0 patience) = Except.ok s
      ∧ s.stopped = true
      ∧ s.epochsDone = patience + 2
      ∧ s.params = paramsAt tp p0 0
      ∧ s.ckpt = some (paramsAt tp p0 0) := by
  obtain ⟨s, hrun, hinv⟩ := trainLoop_inv tp O p0 patience epochs
  obtain ⟨c1, c2, c3, c4, c5, c6, c7, c8, c9⟩ := hinv
  have hj0 : ∀ j, 0 < s.epochsDone → j < s.epochsDone →
      (∀ i, i < s.epochsDone → (O j).vl ≤ (O i).vl) → j = 0 := by
    intro j hpos hj hmin
    by_contra hjne
    have h0j : 0 < j := Nat.pos_of_ne_zero hjne
    exact absurd (hmin 0 hpos) (not_le.mpr (hmono 0 j h0j))
  have hstop : s.stopped = true := by
    by_contra hh
    have hsf : s.stopped = false := by revert hh; cases s.stopped <;> simp
    have hm : s.epochsDone = epochs := c7 hsf
    have hpos : 0 < s.epochsDone := by omega
    obtain ⟨j, hj, _, _, hmin, _, hstep, hiff, _, _, _⟩ := c9 hpos
    have hz : j = 0 := hj0 j hpos hj hmin
    have hns : ¬ patience < s.esStep := fun hc => by
      rw [hiff.mpr hc] at hsf
      exact absurd hsf (by simp)
    omega
  have hpos : 0 < s.epochsDone := by
    rcases Nat.eq_zero_or_pos s.epochsDone with hz | hp
    · rw [(c8 hz).2.2.2.1] at hstop
      exact absurd hstop (by simp)
    · exact hp
  obtain ⟨j, hj, _, hckpt, hmin, _, hstep, _, hstopstep, _, hpt⟩ := c9 hpos
  have hz : j = 0 := hj0 j hpos hj hmin
  have hss : s.esStep = patience + 1 := hstopstep hstop
  refine ⟨s, hrun, hstop, by omega, ?_, ?_⟩
  · rw [hpt hstop, hz]
  · rw [hckpt, hz]

/-- Witness for C1 at a concrete input: patience 0, epoch budget 2, losses
`0, 1, 2, ...`, parameter updates adding 1 each epoch: the run stops after
0 + 2 epochs with the parameters saved at epoch 1. -/
theorem early_stopping_strictly_increasing_w :
    ∃ s, trainLoop (fun _ p => p + 1) (fun i => ⟨0, (i : ℚ), 0, 0⟩) 2
        (initState (0 : ℚ) 0) = Except.ok s
      ∧ s.stopped = true
      ∧ s.epochsDone = 0 + 2
      ∧ s.params = paramsAt (fun _ p => p + 1) (0 : ℚ) 0
      ∧ s.ckpt = some (paramsAt (fun _ p => p + 1) (0 : ℚ) 0) :=
  early_stopping_strictly_increasing (fun _ p => p + 1) (fun i => ⟨0, (i : ℚ), 0, 0⟩)
    (0 : ℚ) 0 2
    (fun i j hij => by show ((i : ℕ) : ℚ) < ((j : ℕ) : ℚ); exact_mod_cast hij) (by omega)

/-- C2: after every completed epoch of a run with early stopping enabled, the
checkpoint on disk holds the parameters of an epoch whose validation loss is
minimal among all those observed so far (and is the recorded best loss);
moreover, when an epoch's validation loss does not exceed the best so far the
check updates the best, resets the counter and persists the current
parameters, and when it exceeds the best the checkpoint is not rewritten. -/
theorem checkpoint_holds_best {P : Type} (tp : ℕ → P → P) (O : ℕ → EpochSummary)
    (p0 : P) (patience n : ℕ) (s : MTrain P)
    (h : trainLoop tp O n (initState p0 patience) = Except.ok s)
    (hm : 0 < s.epochsDone) :
    (∃ j, j < s.epochsDone ∧ s.ckpt = some (paramsAt tp p0 j)
      ∧ s.esLoss = some ((O j).vl)
      ∧ ∀ i, i < s.epochsDone → (O j).vl ≤ (O i).vl)
    ∧ (∀ (t : MTrain P) (l : ℚ), esGT l t.esLoss = false →
        early_stopping l t
          = Except.ok (false, { t with esLoss := some l, esStep := 0, ckpt := some t.params }))
    ∧ (∀ (t : MTrain P) (l : ℚ) (r : Bool × MTrain P), esGT l t.esLoss = true →
        early_stopping l t = Except.ok r → r.2.ckpt = t.ckpt) := by
  refine ⟨?_, ?_, ?_⟩
  · obtain ⟨s2, hrun, hinv⟩ := trainLoop_inv tp O p0 patience n
    rw [h] at hrun
    have hse : s = s2 := by injection hrun
    subst hse
    obtain ⟨_, _, _, _, _, _, _, _, c9⟩ := hinv
    obtain ⟨j, hj, hbest, hckpt, hmin, _⟩ := c9 hm
    exact ⟨j, hj, hckpt, hbest, hmin⟩
  · intro t l hgt
    simp [early_stopping, hgt]
  · intro t l r hgt hok
    rw [early_stopping, hgt] at hok
    simp only [if_true] at hok
    by_cases hpat : t.esPatience < t.esStep + 1
    · rw [if_pos hpat] at hok
      cases hc : t.ckpt with
      | none => rw [hc] at hok; exact absurd hok (by simp)
      | some q =>
        rw [hc] at hok
        simp only [Except.ok.injEq] at hok
        rw [← hok]
    · rw [if_neg hpat] at hok
      simp only [Except.ok.injEq] at hok
      rw [← hok]

/-- Witness for C2 at a concrete input: after one epoch with loss 0 the
checkpoint holds the parameters of that epoch, whose loss is minimal. -/
theorem checkpoint_holds_best_w :
    (∃ j, j < (⟨0, some 0, 0, 0, some 0, [0], [0], [0], [0], 1, false⟩ : MTrain ℚ).epochsDone
      ∧ (⟨0, some 0, 0, 0, some 0, [0], [0], [0], [0], 1, false⟩ : MTrain ℚ).ckpt
          = some (paramsAt (fun _ p => p) (0 : ℚ) j)
      ∧ (⟨0, some 0, 0, 0, some 0, [0], [0], [0], [0], 1, false⟩ : MTrain ℚ).esLoss
          = some (((fun i => (⟨0, if i = 0 then 0 else 1, 0, 0⟩ : EpochSummary)) j).vl)
      ∧ ∀ i, i < (⟨0, some 0, 0, 0, some 0, [0], [0], [0], [0], 1, false⟩ : MTrain ℚ).epochsDone →
          (((fun i => (⟨0, if i = 0 then 0 else 1, 0, 0⟩ : EpochSummary)) j).vl)
            ≤ (((fun i => (⟨0, if i = 0 then 0 else 1, 0, 0⟩ : EpochSummary)) i).vl))
    ∧ (∀ (t : MTrain ℚ) (l : ℚ), esGT l t.esLoss = false →
        early_stopping l t
          = Except.ok (false, { t with esLoss := some l, esStep := 0, ckpt := some t.params }))
    ∧ (∀ (t : MTrain ℚ) (l : ℚ) (r : Bool × MTrain ℚ), esGT l t.esLoss = true →
        early_stopping l t = Except.ok r → r.2.ckpt = t.ckpt) :=
  checkpoint_holds_best (fun _ p => p)
    (fun i => (⟨0, if i = 0 then 0 else 1, 0, 0⟩ : EpochSummary)) (0 : ℚ) 0 1
    ⟨0, some 0, 0, 0, some 0, [0], [0], [0], [0], 1, false⟩ rfl (by decide)

/-- C10: the per-epoch history append happens before the early-stopping
check: in every run that early stopping terminates, each of the four history
series has exactly one entry per completed epoch — in particular the metrics
of the final epoch, the one whose validation loss triggered the stop, are
included. -/
theorem history_appended_before_stop {P : Type} (tp : ℕ → P → P) (O : ℕ → EpochSummary)
    (p0 : P) (patience n : ℕ) (s : MTrain P)
    (h : trainLoop tp O n (initState p0 patience) = Except.ok s)
    (hstop : s.stopped = true) :
    s.hTL.length = s.epochsDone ∧ s.hVL.length = s.epochsDone
    ∧ s.hTA.length = s.epochsDone ∧ s.hVA.length = s.epochsDone
    ∧ 0 < s.epochsDone
    ∧ s.hVL = (List.range s.epochsDone).map (fun i => (O i).vl)
    ∧ (O (s.epochsDone - 1)).tl ∈ s.hTL ∧ (O (s.epochsDone - 1)).vl ∈ s.hVL
    ∧ (O (s.epochsDone - 1)).ta ∈ s.hTA ∧ (O (s.epochsDone - 1)).va ∈ s.hVA := by
  obtain ⟨s2, hrun, hinv⟩ := trainLoop_inv tp O p0 patience n
  rw [h] at hrun
  have hse : s = s2 := by injection hrun
  subst hse
  obtain ⟨_, c2, c3, c4, c5, _, _, c8, _⟩ := hinv
  have hpos : 0 < s.epochsDone := by
    rcases Nat.eq_zero_or_pos s.epochsDone with hz | hp
    · rw [(c8 hz).2.2.2.1] at hstop
      exact absurd hstop (by simp)
    · exact hp
  have hmem : s.epochsDone - 1 ∈ List.range s.epochsDone := List.mem_range.mpr (by omega)
  refine ⟨by simp [c2], by simp [c3], by simp [c4], by simp [c5], hpos, c3, ?_, ?_, ?_, ?_⟩
  · rw [c2]; exact List.mem_map.mpr ⟨s.epochsDone - 1, hmem, rfl⟩
  · rw [c3]; exact List.mem_map.mpr ⟨s.epochsDone - 1, hmem, rfl⟩
  · rw [c4]; exact List.mem_map.mpr ⟨s.epochsDone - 1, hmem, rfl⟩
  · rw [c5]; exact List.mem_map.mpr ⟨s.epochsDone - 1, hmem, rfl⟩

/-- Witness for C10 at a concrete input: patience 0, losses `0, 1`: the run
stops after epoch 2, and each history series has 2 entries, including those of
the stopping epoch. -/
theorem history_appended_before_stop_w :
    (⟨0, some 0, 0, 1, some 0, [0, 0], [0, 1], [0, 0], [0, 0], 2, true⟩ : MTrain ℚ).hTL.length
        = (⟨0, some 0, 0, 1, some 0, [0, 0], [0, 1], [0, 0], [0, 0], 2, true⟩ : MTrain ℚ).epochsDone
    ∧ (⟨0, some 0, 0, 1, some 0, [0, 0], [0, 1], [0, 0], [0, 0], 2, true⟩ : MTrain ℚ).hVL.length
        = (⟨0, some 0, 0, 1, some 0, [0, 0], [0, 1], [0, 0], [0, 0], 2, true⟩ : MTrain ℚ).epochsDone
    ∧ (⟨0, some 0, 0, 1, some 0, [0, 0], [0, 1], [0, 0], [0, 0], 2, true⟩ : MTrain ℚ).hTA.length
        = (⟨0, some 0, 0, 1, some 0, [0, 0], [0, 1], [0, 0], [0, 0], 2, true⟩ : MTrain ℚ).epochsDone
    ∧ (⟨0, some 0, 0, 1, some 0, [0, 0], [0, 1], [0, 0], [0, 0], 2, true⟩ : MTrain ℚ).hVA.length
        = (⟨0, some 0, 0, 1, some 0, [0, 0], [0, 1], [0, 0], [0, 0], 2, true⟩ : MTrain ℚ).epochsDone
    ∧ 0 < (⟨0, some 0, 0, 1, some 0, [0, 0], [0, 1], [0, 0], [0, 0], 2, true⟩ : MTrain ℚ).epochsDone
    ∧ (⟨0, some 0, 0, 1, some 0, [0, 0], [0, 1], [0, 0], [0, 0], 2, true⟩ : MTrain ℚ).hVL
        = (List.range 2).map
            (fun i => ((fun i => (⟨0, if i = 0 then 0 else 1, 0, 0⟩ : EpochSummary)) i).vl)
    ∧ (((fun i => (⟨0, if i = 0 then 0 else 1, 0, 0⟩ : EpochSummary)) (2 - 1)).tl
        ∈ (⟨0, some 0, 0, 1, some 0, [0, 0], [0, 1], [0, 0], [0, 0], 2, true⟩ : MTrain ℚ).hTL)
    ∧ (((fun i => (⟨0, if i = 0 then 0 else 1, 0, 0⟩ : EpochSummary)) (2 - 1)).vl
        ∈ (⟨0, some 0, 0, 1, some 0, [0, 0], [0, 1], [0, 0], [0, 0], 2, true⟩ : MTrain ℚ).hVL)
    ∧ (((fun i => (⟨0, if i = 0 then 0 else 1, 0, 0⟩ : EpochSummary)) (2 - 1)).ta
        ∈ (⟨0, some 0, 0, 1, some 0, [0, 0], [0, 1], [0, 0], [0, 0], 2, true⟩ : MTrain ℚ).hTA)
    ∧ (((fun i => (⟨0, if i = 0 then 0 else 1, 0, 0⟩ : EpochSummary)) (2 - 1)).va
        ∈ (⟨0, some 0, 0, 1, some 0, [0, 0], [0, 1], [0, 0], [0, 0], 2, true⟩ : MTrain ℚ).hVA) :=
  history_appended_before_stop (fun _ p => p)
    (fun i => (⟨0, if i = 0 then 0 else 1, 0, 0⟩ : EpochSummary)) (0 : ℚ) 0 2
    ⟨0, some 0, 0, 1, some 0, [0, 0], [0, 1], [0, 0], [0, 0], 2, true⟩ rfl rfl

end MnistTrainer

end ResNetIllustration
